import Mathlib

/-!
Shallow embedding of the Purdomics/gff repository (gff.py and
stringtie_to_genome.py) and verification of its specification claims.

Python dicts are modelled as association lists with unique keys maintained
by the update operation; Python exceptions (KeyError, ValueError,
IndexError) are modelled by `Option` results (`none` = the call raises).
-/

set_option autoImplicit false

namespace GffSpec

/-- A Python value stored in a record: either a string or an int
(begin/end/frame become ints after coercion). -/
inductive Value where
  | str : String → Value
  | int : Int → Value
deriving DecidableEq, Repr

/-- A parsed GFF record: a Python dict from column/attribute names to values. -/
abbrev Dict := List (String × Value)

/-- `d[key]` lookup; `none` models a KeyError. -/
def dictGet : Dict → String → Option Value
  | [], _ => none
  | (k, v) :: rest, key => if k = key then some v else dictGet rest key

/-- `d[key] = val`: overwrite the first binding of `key`, or append a new one
(Python dict assignment). -/
def dictSet : Dict → String → Value → Dict
  | [], key, val => [(key, val)]
  | (k, v) :: rest, key, val =>
      if k = key then (key, val) :: rest else (k, v) :: dictSet rest key val

/-- `key in d` membership test. -/
def dictHas (d : Dict) (key : String) : Bool :=
  (dictGet d key).isSome

/-- `d.pop(key)`: remove the first binding of `key`, returning its value and
the remaining dict; `none` models the KeyError raised when `key` is absent. -/
def dictPop : Dict → String → Option (Value × Dict)
  | [], _ => none
  | (k, v) :: rest, key =>
      if k = key then some (v, rest)
      else (dictPop rest key).map fun p => (p.1, (k, v) :: p.2)


/-! ## Python string primitives used by gff.py -/

/-- Python `str` whitespace (ASCII). -/
def isSpace (c : Char) : Bool :=
  c = ' ' ∨ c = '\t' ∨ c = '\n' ∨ c = '\r' ∨ c = Char.ofNat 11 ∨ c = Char.ofNat 12

/-- `s.rstrip()` on a character list. -/
def pyRstripList (cs : List Char) : List Char :=
  (cs.reverse.dropWhile isSpace).reverse

/-- `s.rstrip()`. -/
def pyRstrip (s : String) : String :=
  String.mk (pyRstripList s.data)

/-- `s.strip()` on a character list. -/
def pyStripList (cs : List Char) : List Char :=
  pyRstripList (cs.dropWhile isSpace)

/-- `s.strip()`. -/
def pyStrip (s : String) : String :=
  String.mk (pyStripList s.data)

/-- `s.split(maxsplit=n)` with `sep=None`: split on whitespace runs, discard
leading and trailing whitespace; after `maxsplit` splits the remainder
(left-stripped) is the last field. `acc` is the reversed word currently being
scanned (empty when between words). -/
def pySplitWsGo : List Char → Nat → List Char → List String
  | [], _, acc => if acc.isEmpty then [] else [String.mk acc.reverse]
  | c :: cs, maxsplit, acc =>
      if acc.isEmpty then
        if isSpace c then pySplitWsGo cs maxsplit []
        else if maxsplit = 0 then [String.mk (c :: cs)]
        else pySplitWsGo cs maxsplit [c]
      else
        if isSpace c then String.mk acc.reverse :: pySplitWsGo cs (maxsplit - 1) []
        else pySplitWsGo cs maxsplit (c :: acc)

/-- `s.split(maxsplit=n)` (whitespace split). -/
def pySplitWs (s : String) (maxsplit : Nat) : List String :=
  pySplitWsGo s.data maxsplit []

/-- Split at the first occurrence of `sep` (`s.split(sep, maxsplit=1)` when it
yields two parts); `none` models the ValueError raised by unpacking a
one-element result when `sep` does not occur. -/
def splitOnceAux (sep : List Char) : List Char → Option (List Char × List Char)
  | [] => none
  | c :: cs =>
      if sep.isPrefixOf (c :: cs) then some ([], (c :: cs).drop sep.length)
      else (splitOnceAux sep cs).map fun p => (c :: p.1, p.2)

/-- `(key, value) = s.split(sep, maxsplit=1)` on strings. -/
def splitOnceStr (s sep : String) : Option (String × String) :=
  (splitOnceAux sep.data s.data).map fun p => (String.mk p.1, String.mk p.2)

/-- `s.split(sep)` for a one-character separator, Python semantics: empty
pieces are kept, the empty string yields `[""]`. -/
def splitCharGo (sep : Char) : List Char → List Char → List String
  | [], acc => [String.mk acc.reverse]
  | c :: cs, acc =>
      if c = sep then String.mk acc.reverse :: splitCharGo sep cs []
      else splitCharGo sep cs (c :: acc)

/-- `s.split(sep)` on strings (one-character separator). -/
def splitChar (sep : Char) (s : String) : List String :=
  splitCharGo sep s.data []

/-- `value.replace(chr(34), '')`: drop every double-quote character. -/
def removeQuotes (s : String) : String :=
  String.mk (s.data.filter fun c => c ≠ Char.ofNat 34)

def digitsToNatGo : List Char → Nat → Option Nat
  | [], acc => some acc
  | c :: cs, acc =>
      if c.isDigit then digitsToNatGo cs (acc * 10 + (c.toNat - 48)) else none

def digitsToNat : List Char → Option Nat
  | [] => none
  | cs => digitsToNatGo cs 0

/-- Python `int(s)` on a string: strip whitespace, optional sign, digits;
`none` models the ValueError on anything else (in particular on `"."`). -/
def pyStrToInt (s : String) : Option Int :=
  match pyStripList s.data with
  | '+' :: cs => (digitsToNat cs).map fun n => (n : Int)
  | '-' :: cs => (digitsToNat cs).map fun n => -(n : Int)
  | cs => (digitsToNat cs).map fun n => (n : Int)

/-- Python `int(x)` on a stored value: ints pass through, strings are parsed. -/
def pyInt : Value → Option Int
  | Value.int n => some n
  | Value.str s => pyStrToInt s

/-- `line.startswith(chr(35))`. -/
def startswithHash (s : String) : Bool :=
  match s.data with
  | c :: _ => c = Char.ofNat 35
  | [] => false

/-! ## The Gff class state (gff.py) -/

/-- The fixed column names (class variable `Gff.column`). -/
def Gff.column : List String :=
  ["sequence", "method", "feature", "begin", "end", "score", "strand", "frame", "attribute"]

/-- The mutable state of a `Gff` object: parsed records, dialect mode and the
attribute inner separator (the input file handle is modelled separately as a
list of remaining lines). -/
structure GffState where
  data : List Dict
  mode : String
  attr_sep : String
deriving DecidableEq, Repr

/-- `Gff.setmode`. The source writes `self.mode == 'GFF'` / `self.mode ==
'GTF'` — comparison expressions with no effect — so only `attr_sep` is ever
updated, which this embedding mirrors faithfully. -/
def setmode (g : GffState) (mode : String) : GffState :=
  if g.mode = mode then g
  else if mode = "GFF" then { g with attr_sep := "=" }
  else if mode = "GTF" then { g with attr_sep := " " }
  else g

/-- The state set up by `Gff.__init__` before `setmode` is applied. -/
def gffDefault : GffState :=
  { data := [], mode := "GFF", attr_sep := "=" }

/-- `Gff.__init__(mode=mode)` (file handling aside). -/
def gffInit (mode : String) : GffState :=
  setmode gffDefault mode

/-! ## `Gff.feature_parse` -/

/-- The column-assignment loop: `for i in range(len(field)):
parsed[Gff.column[i]] = field[i]` (with at most 9 fields, zipping against the
column list is that loop). -/
def buildParsed (field : List String) : Dict :=
  (Gff.column.zip field).foldl (fun d kv => dictSet d kv.1 (Value.str kv.2)) []

/-- One step of the numeric-coercion loop:
`if parsed[col] != '.': parsed[col] = int(parsed[col])`.
`none` models the KeyError (missing column) or ValueError (unparsable). -/
def coerceCol (d : Dict) (col : String) : Option Dict :=
  (dictGet d col).bind fun v =>
    if v = Value.str "." then some d
    else (pyInt v).bind fun n => some (dictSet d col (Value.int n))

/-- `f.strip().split(attr_sep, maxsplit=1)` followed by
`parsed[key] = value.replace(chr(34), '')` for one attribute segment;
`none` models the ValueError when the segment holds no separator. -/
def parseSegment (sep : String) (d : Dict) (f : String) : Option Dict :=
  (splitOnceStr (pyStrip f) sep).map fun kv =>
    dictSet d kv.1 (Value.str (removeQuotes kv.2))

/-- `field = parsed['attribute'].rstrip().split(';')` and the trailing-blank
pop: `if not field[-1]: field.pop()`. -/
def attrSegments (a : String) : List String :=
  let field := splitChar ';' (pyRstrip a)
  match field.getLast? with
  | some "" => field.dropLast
  | _ => field

/-- The attribute loop of `feature_parse`, processing the segments in order. -/
def foldParse (sep : String) : Dict → List String → Option Dict
  | d, [] => some d
  | d, f :: rest =>
      match parseSegment sep d f with
      | none => none
      | some d' => foldParse sep d' rest

/-- The whole attribute block of `feature_parse` applied to the stored
`attribute` value (the value is a string for any parsed record; a non-string
would make Python's `.rstrip()` raise, modelled as `none`). -/
def attrParse (sep : String) (d : Dict) (a : String) : Option Dict :=
  foldParse sep d (attrSegments a)

/-- The attribute step starting from the `parsed['attribute']` lookup. -/
def attrStep (sep : String) (d : Dict) : Option Dict :=
  match dictGet d "attribute" with
  | some (Value.str a) => attrParse sep d a
  | _ => none

/-- `Gff.feature_parse` after the line has been whitespace-split into fields. -/
def feature_parse_fields (sep : String) (field : List String) : Option Dict :=
  (coerceCol (buildParsed field) "begin").bind fun d1 =>
  (coerceCol d1 "end").bind fun d2 =>
  (coerceCol d2 "frame").bind fun d3 =>
  attrStep sep d3

/-- `Gff.feature_parse(line)`: `field = line.rstrip().split(maxsplit=8)`,
column assignment, numeric coercion of begin/end/frame, attribute split. -/
def feature_parse (sep : String) (line : String) : Option Dict :=
  feature_parse_fields sep (pySplitWs (pyRstrip line) 8)

/-! ## `Gff.read` -/

/-- `Gff.read`: read one line (the list holds the not-yet-read lines of
`gff_in`), rstrip it, dispatch on comment vs feature. Returns the Python
return value, the updated object and the remaining stream; `none` models an
exception escaping from `feature_parse`. -/
def read (g : GffState) (stream : List String) : Option (Bool × GffState × List String) :=
  match stream with
  | [] => some (false, g, [])
  | l :: rest =>
      let line := pyRstrip l
      if line = "" then some (false, g, rest)
      else if startswithHash line then some (true, g, rest)
      else
        match feature_parse g.attr_sep line with
        | none => none
        | some parsed => some (true, { g with data := g.data ++ [parsed] }, rest)

/-! ## `Gff.attribute_add` -/

/-- The mutation loop of `attribute_add`: set `attr` on the rows of the
half-open index range `[b, e)`, `j` being the index of the list head. -/
def setRangeGo (attr : String) (value : Value) (b e : Nat) : Nat → List Dict → List Dict
  | _, [] => []
  | j, d :: rest =>
      (if b ≤ j ∧ j < e then dictSet d attr value else d) :: setRangeGo attr value b e (j + 1) rest

/-- `for row in self.data[begin:end]: row[attr] = value`. -/
def setRange (attr : String) (value : Value) (b e : Nat) (l : List Dict) : List Dict :=
  setRangeGo attr value b e 0 l

/-- `Gff.attribute_add(attr, value, begin, end)`: an `end` of 0 is replaced by
the store length, the uniqueness check reads `self.data[begin]` (`none`
models the IndexError when that row does not exist), and the return value is
`end - begin` (an `int`, possibly negative in Python, hence `Int`). -/
def attribute_add (g : GffState) (attr : String) (value : Value) (b e : Nat) :
    Option (GffState × Int) :=
  let e := if e = 0 then g.data.length else e
  match g.data.get? b with
  | none => none
  | some row =>
      if dictHas row attr then some (g, 0)
      else some ({ g with data := setRange attr value b e g.data }, (e : Int) - (b : Int))

/-! ## `Gff.rename_key` and `Gff.position_to_int` -/

/-- Run `f` over every record in order, stopping at the first exception —
the shape of the `for d in data:` loops of `rename_key`/`position_to_int`. -/
def mapRecords (f : Dict → Option Dict) : List Dict → Option (List Dict)
  | [] => some []
  | d :: rest =>
      match f d with
      | none => none
      | some d' => (mapRecords f rest).map fun rest' => d' :: rest'

/-- One record of `rename_key`: `d[new_key] = d.pop(old_key)`; `none` models
the KeyError when `old_key` is absent from this record. -/
def rename_rec (oldKey newKey : String) (d : Dict) : Option Dict :=
  (dictPop d oldKey).map fun p => dictSet p.2 newKey p.1

/-- `Gff.rename_key(old_key, new_key)`: the presence check reads `data[0]`
(`none` models the IndexError on an empty store); on success the Python
return value (`true`/`false`) is paired with the updated state. -/
def rename_key (g : GffState) (oldKey newKey : String) : Option (GffState × Bool) :=
  match g.data.get? 0 with
  | none => none
  | some d0 =>
      if dictHas d0 oldKey then
        (mapRecords (rename_rec oldKey newKey) g.data).map
          fun data' => ({ g with data := data' }, true)
      else some (g, false)

/-- One record of `position_to_int`: `d['begin'] = int(d['begin']);
d['end'] = int(d['end'])` with no `'.'` guard; `none` models KeyError or
ValueError. -/
def pos_rec (d : Dict) : Option Dict :=
  (dictGet d "begin").bind fun v =>
  (pyInt v).bind fun n =>
  (dictGet (dictSet d "begin" (Value.int n)) "end").bind fun v2 =>
  (pyInt v2).bind fun n2 =>
  some (dictSet (dictSet d "begin" (Value.int n)) "end" (Value.int n2))

/-- `Gff.position_to_int()`. -/
def position_to_int (g : GffState) : Option GffState :=
  (mapRecords pos_rec g.data).map fun data' => { g with data := data' }

/-! ## The overlap sweep (stringtie_to_genome.py, `overlap`)

By the time `overlap` runs, records have integer `begin`/`end` and a string
`sequence`, accessed as attributes; we model them as a structure. -/

/-- A record as seen by the overlap sweep. -/
structure OverlapRec where
  sequence : String
  begin : Int
  «end» : Int
deriving DecidableEq, Repr

/-- The loop of `overlap`: `region`, `stop` and `sequence` are the running
state; the generator's `return` on exhaustion yields nothing, so the final
accumulated region is dropped, exactly as in the source. -/
def overlapGo : List OverlapRec → List OverlapRec → Int → String → List (List OverlapRec)
  | [], _, _, _ => []
  | new :: rest, region, stop, sequence =>
      if new.sequence = sequence ∧ new.begin < stop then
        overlapGo rest (region ++ [new]) (max stop new.«end») sequence
      else
        region :: overlapGo rest [new] new.«end» new.sequence

/-- `overlap(gen)`: seed the state from the first record, then sweep. -/
def overlap : List OverlapRec → List (List OverlapRec)
  | [] => []
  | new :: rest => overlapGo rest [new] new.«end» new.sequence

/-! ## Dict lemmas -/

@[simp] theorem dictGet_nil (key : String) : dictGet [] key = none := rfl

theorem dictGet_dictSet_self (d : Dict) (k : String) (v : Value) :
    dictGet (dictSet d k v) k = some v := by
  induction d with
  | nil => simp [dictSet, dictGet]
  | cons p rest ih =>
    by_cases h : p.1 = k
    · simp [dictSet, dictGet, h]
    · simp [dictSet, dictGet, h, ih]

theorem dictGet_dictSet_ne (d : Dict) (k k' : String) (v : Value) (h : k' ≠ k) :
    dictGet (dictSet d k v) k' = dictGet d k' := by
  have h' : ¬k = k' := fun he => h he.symm
  induction d with
  | nil => simp [dictSet, dictGet, h']
  | cons p rest ih =>
    rcases p with ⟨pk, pv⟩
    by_cases hp : pk = k
    · subst hp
      simp [dictSet, dictGet, h']
    · simp [dictSet, dictGet, hp, ih]

theorem dictSet_self (d : Dict) (k : String) (v : Value)
    (h : dictGet d k = some v) : dictSet d k v = d := by
  induction d with
  | nil => simp [dictGet] at h
  | cons p rest ih =>
    rcases p with ⟨pk, pv⟩
    by_cases hp : pk = k
    · subst hp
      simp [dictGet] at h
      simp [dictSet, h]
    · simp [dictGet, hp] at h
      simp [dictSet, hp, ih h]

theorem dictGet_eq_none_of_not_mem (d : Dict) (k : String)
    (h : k ∉ d.map Prod.fst) : dictGet d k = none := by
  induction d with
  | nil => rfl
  | cons p tl ih =>
    simp only [List.map_cons, List.mem_cons, not_or] at h
    have h1 : ¬p.1 = k := fun e => h.1 e.symm
    simp [dictGet, h1, ih h.2]

theorem dictPop_get (d : Dict) (k : String) (v : Value) (rest : Dict)
    (h : dictPop d k = some (v, rest)) : dictGet d k = some v := by
  induction d generalizing v rest with
  | nil => simp [dictPop] at h
  | cons p tl ih =>
    rcases p with ⟨pk, pv⟩
    by_cases hp : pk = k
    · subst hp
      simp [dictPop] at h
      simp [dictGet, h.1]
    · simp only [dictPop, if_neg hp] at h
      rcases hq : dictPop tl k with _ | ⟨q, qrest⟩
      · rw [hq] at h; simp at h
      · rw [hq] at h
        simp at h
        obtain ⟨h1, -⟩ := h
        simp [dictGet, hp]
        exact ih v qrest (by rw [hq, h1])

theorem dictPop_eq_none (d : Dict) (k : String) :
    dictPop d k = none ↔ dictGet d k = none := by
  induction d with
  | nil => simp [dictPop, dictGet]
  | cons p tl ih =>
    rcases p with ⟨pk, pv⟩
    by_cases hp : pk = k
    · subst hp
      simp [dictPop, dictGet]
    · simp [dictPop, dictGet, hp, Option.map_eq_none', ih]

/-- After popping `k` from a dict whose keys are unique, `k` is gone. -/
theorem dictPop_nodup_get_none (d : Dict) (k : String) (v : Value) (rest : Dict)
    (hnd : (d.map Prod.fst).Nodup) (h : dictPop d k = some (v, rest)) :
    dictGet rest k = none := by
  induction d generalizing v rest with
  | nil => simp [dictPop] at h
  | cons p tl ih =>
    rcases p with ⟨pk, pv⟩
    simp only [List.map_cons, List.nodup_cons] at hnd
    by_cases hp : pk = k
    · subst hp
      simp [dictPop] at h
      obtain ⟨-, hrest⟩ := h
      subst hrest
      exact dictGet_eq_none_of_not_mem _ _ hnd.1
    · simp only [dictPop, if_neg hp] at h
      rcases hq : dictPop tl k with _ | ⟨q, qrest⟩
      · rw [hq] at h; simp at h
      · rw [hq] at h
        simp at h
        obtain ⟨h1, h2⟩ := h
        subst h2
        simp [dictGet, hp]
        exact ih v qrest hnd.2 (by rw [hq, h1])

theorem dictHas_false_iff (d : Dict) (k : String) :
    dictHas d k = false ↔ dictGet d k = none := by
  unfold dictHas
  cases dictGet d k <;> simp

theorem dictHas_true_iff (d : Dict) (k : String) :
    dictHas d k = true ↔ ∃ v, dictGet d k = some v := by
  unfold dictHas
  cases dictGet d k <;> simp

theorem dictHas_dictSet_mono (d : Dict) (k k' : String) (v : Value)
    (h : dictHas d k = true) : dictHas (dictSet d k' v) k = true := by
  by_cases hk : k = k'
  · subst hk
    simp [dictHas, dictGet_dictSet_self]
  · rw [dictHas, dictGet_dictSet_ne d k' k v hk]
    exact h

/-! ## mapRecords lemmas -/

theorem mapRecords_none_of_mem (f : Dict → Option Dict) :
    ∀ l : List Dict, (∃ d ∈ l, f d = none) → mapRecords f l = none := by
  intro l
  induction l with
  | nil => rintro ⟨d, hd, -⟩; simp at hd
  | cons d0 rest ih =>
    rintro ⟨d, hd, hn⟩
    rcases List.mem_cons.mp hd with he | hm
    · subst he
      simp [mapRecords, hn]
    · rcases hf : f d0 with _ | d0'
      · simp [mapRecords, hf]
      · simp [mapRecords, hf, ih ⟨d, hm, hn⟩]

theorem mapRecords_idem (f : Dict → Option Dict)
    (hf : ∀ a b, f a = some b → f b = some b) :
    ∀ l l' : List Dict, mapRecords f l = some l' → mapRecords f l' = some l' := by
  intro l
  induction l with
  | nil =>
    intro l' h
    simp [mapRecords] at h
    subst h
    rfl
  | cons d0 rest ih =>
    intro l' h
    rcases hf0 : f d0 with _ | d0' <;> rw [mapRecords, hf0] at h
    · simp at h
    · rcases hr : mapRecords f rest with _ | rest' <;> rw [hr] at h
      · simp at h
      · simp at h
        subst h
        rw [mapRecords, hf d0 d0' hf0]
        rw [ih rest' hr]
        rfl

theorem mapRecords_length (f : Dict → Option Dict) :
    ∀ l l' : List Dict, mapRecords f l = some l' → l'.length = l.length := by
  intro l
  induction l with
  | nil =>
    intro l' h
    simp [mapRecords] at h
    subst h
    rfl
  | cons d0 rest ih =>
    intro l' h
    rcases hf0 : f d0 with _ | d0' <;> rw [mapRecords, hf0] at h
    · simp at h
    · rcases hr : mapRecords f rest with _ | rest' <;> rw [hr] at h
      · simp at h
      · simp at h
        subst h
        simp [ih rest' hr]

theorem mapRecords_some_of_all (f : Dict → Option Dict) :
    ∀ l : List Dict, (∀ d ∈ l, (f d).isSome) →
      ∃ l', mapRecords f l = some l' := by
  intro l
  induction l with
  | nil => exact fun _ => ⟨[], rfl⟩
  | cons d0 rest ih =>
    intro hall
    have h0 := hall d0 (List.mem_cons_self d0 rest)
    rcases hf0 : f d0 with _ | d0'
    · rw [hf0] at h0; simp at h0
    · obtain ⟨rest', hr⟩ := ih fun d hd => hall d (List.mem_cons_of_mem _ hd)
      exact ⟨d0' :: rest', by rw [mapRecords, hf0, hr]; rfl⟩

theorem mapRecords_get (f : Dict → Option Dict) :
    ∀ (l l' : List Dict), mapRecords f l = some l' →
      ∀ (i : Nat) (hi : i < l.length) (hi' : i < l'.length),
        f (l.get ⟨i, hi⟩) = some (l'.get ⟨i, hi'⟩) := by
  intro l
  induction l with
  | nil =>
    intro l' h i hi
    simp at hi
  | cons d0 rest ih =>
    intro l' h i hi hi'
    rcases hf0 : f d0 with _ | d0' <;> rw [mapRecords, hf0] at h
    · simp at h
    · rcases hr : mapRecords f rest with _ | rest' <;> rw [hr] at h
      · simp at h
      · simp at h
        subst h
        cases i with
        | zero => simpa using hf0
        | succ i' =>
          have hi2 : i' < rest.length := by simpa using hi
          have hi2' : i' < rest'.length := by simpa using hi'
          simpa using ih rest' hr i' hi2 hi2'

/-! ## pos_rec lemmas -/

theorem pyStrToInt_dot : pyStrToInt "." = none := by decide

theorem pos_rec_dot (d : Dict)
    (h : dictGet d "begin" = some (Value.str ".") ∨ dictGet d "end" = some (Value.str ".")) :
    pos_rec d = none := by
  rcases h with hb | he
  · simp [pos_rec, hb, pyInt, pyStrToInt_dot]
  · rcases hb : dictGet d "begin" with _ | v
    · simp [pos_rec, hb]
    · rcases hn : pyInt v with _ | n
      · simp [pos_rec, hb, hn]
      · have he' : dictGet (dictSet d "begin" (Value.int n)) "end"
            = some (Value.str ".") := by
          rw [dictGet_dictSet_ne d "begin" "end" (Value.int n) (by decide)]
          exact he
        simp only [pos_rec, hb, hn, he', Option.some_bind]
        simp [pyInt, pyStrToInt_dot]

theorem pos_rec_idem (d d' : Dict) (h : pos_rec d = some d') : pos_rec d' = some d' := by
  unfold pos_rec at h
  simp only [Option.bind_eq_some] at h
  obtain ⟨v, hv, n, hn, v2, hv2, n2, hn2, h⟩ := h
  rw [Option.some_inj] at h
  subst h
  have g1 : dictGet (dictSet (dictSet d "begin" (Value.int n)) "end" (Value.int n2)) "begin"
      = some (Value.int n) := by
    rw [dictGet_dictSet_ne _ "end" "begin" _ (by decide), dictGet_dictSet_self]
  have s1 : dictSet (dictSet (dictSet d "begin" (Value.int n)) "end" (Value.int n2))
      "begin" (Value.int n)
      = dictSet (dictSet d "begin" (Value.int n)) "end" (Value.int n2) :=
    dictSet_self _ _ _ g1
  have g2 : dictGet (dictSet (dictSet d "begin" (Value.int n)) "end" (Value.int n2)) "end"
      = some (Value.int n2) := dictGet_dictSet_self _ _ _
  unfold pos_rec
  rw [g1]
  simp only [Option.some_bind, pyInt, s1, g2]
  rw [dictSet_self _ _ _ g2]

/-! ## foldParse lemmas -/

theorem foldParse_eq_none (sep : String) :
    ∀ (l : List String) (d : Dict),
      foldParse sep d l = none ↔ ∃ f ∈ l, splitOnceStr (pyStrip f) sep = none := by
  intro l
  induction l with
  | nil => intro d; simp [foldParse]
  | cons f rest ih =>
    intro d
    rcases hs : splitOnceStr (pyStrip f) sep with _ | kv
    · simp only [foldParse, parseSegment, hs, Option.map_none']
      constructor
      · intro _
        exact ⟨f, List.mem_cons_self f rest, hs⟩
      · intro _
        trivial
    · have hd' : parseSegment sep d f
          = some (dictSet d kv.1 (Value.str (removeQuotes kv.2))) := by
        simp [parseSegment, hs]
      simp only [foldParse, hd', ih]
      constructor
      · rintro ⟨f', hf', hn⟩
        exact ⟨f', List.mem_cons_of_mem _ hf', hn⟩
      · rintro ⟨f', hf', hn⟩
        rcases List.mem_cons.mp hf' with he | hm
        · subst he
          rw [hs] at hn
          exact Option.noConfusion hn
        · exact ⟨f', hm, hn⟩

theorem foldParse_has_mono (sep : String) :
    ∀ (l : List String) (d d' : Dict), foldParse sep d l = some d' →
      ∀ k, dictHas d k = true → dictHas d' k = true := by
  intro l
  induction l with
  | nil =>
    intro d d' h k hk
    simp [foldParse] at h
    exact h ▸ hk
  | cons f rest ih =>
    intro d d' h k hk
    rcases hs : parseSegment sep d f with _ | d1 <;> rw [foldParse, hs] at h
    · exact Option.noConfusion h
    · rcases hs2 : splitOnceStr (pyStrip f) sep with _ | kv <;>
        simp only [parseSegment, hs2] at hs
      · exact Option.noConfusion hs
      · rw [Option.map_some', Option.some_inj] at hs
        subst hs
        exact ih _ _ h k (dictHas_dictSet_mono _ _ _ _ hk)

theorem foldParse_some_keys (sep : String) :
    ∀ (l : List String) (d d' : Dict), foldParse sep d l = some d' →
      ∀ f ∈ l, ∃ kv, splitOnceStr (pyStrip f) sep = some kv ∧ dictHas d' kv.1 = true := by
  intro l
  induction l with
  | nil =>
    intro d d' h f hf
    simp at hf
  | cons f0 rest ih =>
    intro d d' h f hf
    rcases hs : parseSegment sep d f0 with _ | d1 <;> rw [foldParse, hs] at h
    · exact Option.noConfusion h
    · rcases hs2 : splitOnceStr (pyStrip f0) sep with _ | kv <;>
        simp only [parseSegment, hs2] at hs
      · exact Option.noConfusion hs
      · rw [Option.map_some', Option.some_inj] at hs
        subst hs
        rcases List.mem_cons.mp hf with he | hm
        · subst he
          refine ⟨kv, hs2, ?_⟩
          refine foldParse_has_mono sep rest _ d' h kv.1 ?_
          simp [dictHas, dictGet_dictSet_self]
        · exact ih _ _ h f hm

/-! ## feature_parse lemmas -/

theorem dictGet_foldl_not_mem_take :
    ∀ (cols fs : List String) (init : Dict) (k : String),
      k ∉ cols.take fs.length →
      dictGet ((cols.zip fs).foldl (fun d kv => dictSet d kv.1 (Value.str kv.2)) init) k
        = dictGet init k := by
  intro cols
  induction cols with
  | nil =>
    intro fs init k h
    simp [List.zip]
  | cons c cols ih =>
    intro fs init k h
    cases fs with
    | nil => simp
    | cons f fs' =>
      simp only [List.length_cons, List.take_succ_cons, List.mem_cons, not_or] at h
      simp only [List.zip_cons_cons, List.foldl_cons]
      rw [ih fs' _ k h.2, dictGet_dictSet_ne _ _ _ _ h.1]

theorem buildParsed_attribute_none (fs : List String) (h : fs.length ≤ 8) :
    dictGet (buildParsed fs) "attribute" = none := by
  unfold buildParsed
  rw [dictGet_foldl_not_mem_take]
  · rfl
  · have heq : (Gff.column.take 8).take fs.length = Gff.column.take fs.length := by
      rw [List.take_take, Nat.min_eq_left h]
    rw [← heq]
    intro hmem
    exact absurd (List.take_subset _ _ hmem) (by decide)

theorem coerceCol_get_none (d d' : Dict) (col k : String)
    (h : coerceCol d col = some d') (hk : dictGet d k = none) :
    dictGet d' k = none := by
  unfold coerceCol at h
  simp only [Option.bind_eq_some] at h
  obtain ⟨v, hv, h⟩ := h
  by_cases hdot : v = Value.str "."
  · rw [if_pos hdot, Option.some_inj] at h
    exact h ▸ hk
  · rw [if_neg hdot] at h
    simp only [Option.bind_eq_some] at h
    obtain ⟨n, -, h⟩ := h
    rw [Option.some_inj] at h
    subst h
    by_cases hkc : k = col
    · subst hkc
      rw [hk] at hv
      exact Option.noConfusion hv
    · rw [dictGet_dictSet_ne _ _ _ _ hkc]
      exact hk

theorem fpf_attribute_none (sep : String) (fs : List String)
    (h : dictGet (buildParsed fs) "attribute" = none) :
    feature_parse_fields sep fs = none := by
  unfold feature_parse_fields
  rcases h1 : coerceCol (buildParsed fs) "begin" with _ | d1
  · rfl
  rw [Option.some_bind]
  rcases h2 : coerceCol d1 "end" with _ | d2
  · rfl
  rw [Option.some_bind]
  rcases h3 : coerceCol d2 "frame" with _ | d3
  · rfl
  rw [Option.some_bind]
  have a1 := coerceCol_get_none _ _ _ _ h1 h
  have a2 := coerceCol_get_none _ _ _ _ h2 a1
  have a3 := coerceCol_get_none _ _ _ _ h3 a2
  simp [attrStep, a3]

/-! ## setRange and rename_rec lemmas -/

theorem setRangeGo_length (attr : String) (value : Value) (b e : Nat) :
    ∀ (l : List Dict) (j : Nat), (setRangeGo attr value b e j l).length = l.length := by
  intro l
  induction l with
  | nil => intro j; rfl
  | cons d rest ih => intro j; simp [setRangeGo, ih]

theorem setRange_length (attr : String) (value : Value) (b e : Nat) (l : List Dict) :
    (setRange attr value b e l).length = l.length :=
  setRangeGo_length attr value b e l 0

theorem setRangeGo_getq (attr : String) (value : Value) (b e : Nat) :
    ∀ (l : List Dict) (j i : Nat),
      (setRangeGo attr value b e j l)[i]?
        = l[i]?.map
            fun d => if b ≤ j + i ∧ j + i < e then dictSet d attr value else d := by
  intro l
  induction l with
  | nil => intro j i; simp [setRangeGo]
  | cons d rest ih =>
    intro j i
    cases i with
    | zero => simp [setRangeGo]
    | succ i' =>
      simp only [setRangeGo, List.getElem?_cons_succ]
      rw [ih (j + 1) i']
      have harith : j + 1 + i' = j + (i' + 1) := by omega
      rw [harith]

theorem setRange_getq (attr : String) (value : Value) (b e : Nat) (l : List Dict) (i : Nat) :
    (setRange attr value b e l)[i]?
      = l[i]?.map fun d => if b ≤ i ∧ i < e then dictSet d attr value else d := by
  have h := setRangeGo_getq attr value b e l 0 i
  simpa [setRange] using h

theorem rename_rec_isSome (oldKey newKey : String) (d : Dict)
    (h : dictHas d oldKey = true) : (rename_rec oldKey newKey d).isSome := by
  rcases hp : dictPop d oldKey with _ | p
  · rw [dictPop_eq_none] at hp
    rw [dictHas, hp] at h
    simp at h
  · simp [rename_rec, hp]

theorem rename_rec_get (oldKey newKey : String) (d d' : Dict)
    (h : rename_rec oldKey newKey d = some d') :
    dictGet d' newKey = dictGet d oldKey
    ∧ (oldKey ≠ newKey → (d.map Prod.fst).Nodup → dictGet d' oldKey = none) := by
  unfold rename_rec at h
  rcases hp : dictPop d oldKey with _ | p <;> rw [hp] at h
  · exact Option.noConfusion h
  · simp at h
    subst h
    rcases p with ⟨v, rest⟩
    constructor
    · rw [dictGet_dictSet_self, dictPop_get d oldKey v rest hp]
    · intro hne hnd
      rw [dictGet_dictSet_ne _ _ _ _ hne]
      exact dictPop_nodup_get_none d oldKey v rest hnd hp

/-! ## Claim theorems -/

/-- C1: the claim says that after the last input record is consumed the group
being accumulated is emitted, so the sorted input
`[A:1-10, A:5-8, A:9-20, A:25-30]` yields `[[1-10,5-8,9-20],[25-30]]`.
The code's generator returns without yielding the final region, so the run
yields only `[[1-10,5-8,9-20]]` and the final group `[25-30]` is dropped:
the code contradicts the spec's (and its own docstring's) evident intent. -/
theorem overlap_drops_final_group :
    overlap [⟨"A", 1, 10⟩, ⟨"A", 5, 8⟩, ⟨"A", 9, 20⟩, ⟨"A", 25, 30⟩]
      = [[⟨"A", 1, 10⟩, ⟨"A", 5, 8⟩, ⟨"A", 9, 20⟩]]
    ∧ overlap [⟨"A", 1, 10⟩, ⟨"A", 5, 8⟩, ⟨"A", 9, 20⟩, ⟨"A", 25, 30⟩]
      ≠ [[⟨"A", 1, 10⟩, ⟨"A", 5, 8⟩, ⟨"A", 9, 20⟩], [⟨"A", 25, 30⟩]] := by
  constructor
  · decide
  · decide

/-- C2: the overlap sweep absorbs the next record `new` into the current group
exactly when `new.sequence` equals the group's sequence and `new.begin` is
strictly below the running envelope `stop`, updating `stop` to
`max stop new.end`; otherwise (in particular whenever the intervals merely
touch, `new.begin = stop`) the current group is emitted and a fresh group is
seeded from `new`. -/
theorem overlap_absorb_iff (new : OverlapRec) (rest region : List OverlapRec)
    (stop : Int) (sequence : String) :
    (new.sequence = sequence ∧ new.begin < stop →
        overlapGo (new :: rest) region stop sequence
          = overlapGo rest (region ++ [new]) (max stop new.«end») sequence)
    ∧ (¬(new.sequence = sequence ∧ new.begin < stop) →
        overlapGo (new :: rest) region stop sequence
          = region :: overlapGo rest [new] new.«end» new.sequence)
    ∧ (new.begin = stop →
        overlapGo (new :: rest) region stop sequence
          = region :: overlapGo rest [new] new.«end» new.sequence) := by
  refine ⟨fun h => ?_, fun h => ?_, fun h => ?_⟩
  · simp only [overlapGo]
    rw [if_pos h]
  · simp only [overlapGo]
    rw [if_neg h]
  · simp only [overlapGo]
    rw [if_neg ?_]
    rintro ⟨-, hlt⟩
    omega

/-- Witness for C2 at concrete inputs: an overlapping record is absorbed, a
record on another sequence starts a new group, and a merely touching record
(`begin = stop`) also starts a new group. -/
theorem overlap_absorb_iff_witness :
    overlapGo [⟨"A", 5, 8⟩] [⟨"A", 1, 10⟩] 10 "A"
      = overlapGo [] ([⟨"A", 1, 10⟩] ++ [⟨"A", 5, 8⟩]) (max 10 8) "A"
    ∧ overlapGo [⟨"B", 3, 4⟩] [⟨"A", 1, 10⟩] 10 "A"
      = [⟨"A", 1, 10⟩] :: overlapGo [] [⟨"B", 3, 4⟩] 4 "B"
    ∧ overlapGo [⟨"A", 10, 12⟩] [⟨"A", 1, 10⟩] 10 "A"
      = [⟨"A", 1, 10⟩] :: overlapGo [] [⟨"A", 10, 12⟩] 12 "A" :=
  ⟨(overlap_absorb_iff ⟨"A", 5, 8⟩ [] [⟨"A", 1, 10⟩] 10 "A").1 (by exact ⟨rfl, by decide⟩),
   (overlap_absorb_iff ⟨"B", 3, 4⟩ [] [⟨"A", 1, 10⟩] 10 "A").2.1 (by decide),
   (overlap_absorb_iff ⟨"A", 10, 12⟩ [] [⟨"A", 1, 10⟩] 10 "A").2.2 (by decide)⟩

/-- C5: the claim says `setMode` toggles mode in both directions, with the
separator following. In the source both `self.mode == 'GFF'` and
`self.mode == 'GTF'` are comparisons, not assignments, so the stored mode
never changes: after `setmode('GTF')` the mode is still `'GFF'` (only the
separator became a space), and the subsequent `setmode('GFF')` returns early
on the `self.mode == mode` check, leaving the separator a space instead of
`'='`. The evident intent (the docstring's "new value for self.mode") is the
claim's behaviour, so this is a bug in the code. -/
theorem setmode_toggle_bug :
    (setmode gffDefault "GTF").mode = "GFF"
    ∧ (setmode gffDefault "GTF").attr_sep = " "
    ∧ (setmode (setmode gffDefault "GTF") "GFF").mode = "GFF"
    ∧ (setmode (setmode gffDefault "GTF") "GFF").attr_sep = " " :=
  ⟨rfl, rfl, rfl, rfl⟩

/-- C3 counterexample: the claim says `position_to_int` leaves a `'.'` value
unchanged as a string sentinel and still succeeds. On a store whose single
record has `begin = '.'`, the code calls `int('.')`, which raises ValueError:
the operation fails instead of succeeding. -/
theorem position_to_int_dot_counterexample :
    position_to_int
        { data := [[("begin", Value.str "."), ("end", Value.str "100")]],
          mode := "GFF", attr_sep := "=" }
      = none := rfl

/-- C3 amended: `position_to_int` coerces `begin` and `end` on every record
unconditionally — there is no `'.'` guard, so any record whose `begin` or
`end` is the string `'.'` makes the pass raise ValueError instead of leaving
the sentinel in place (the `'.'` guard exists only in `feature_parse`); on
stores where the pass succeeds it is idempotent. -/
theorem position_to_int_amended (g : GffState) :
    ((∃ d ∈ g.data,
        dictGet d "begin" = some (Value.str ".")
        ∨ dictGet d "end" = some (Value.str ".")) →
      position_to_int g = none)
    ∧ ∀ g', position_to_int g = some g' → position_to_int g' = some g' := by
  constructor
  · rintro ⟨d, hd, hc⟩
    have hnone := mapRecords_none_of_mem pos_rec g.data ⟨d, hd, pos_rec_dot d hc⟩
    simp [position_to_int, hnone]
  · intro g' h
    unfold position_to_int at h
    rcases hm : mapRecords pos_rec g.data with _ | data' <;> rw [hm] at h
    · simp at h
    · simp at h
      subst h
      have hm' := mapRecords_idem pos_rec pos_rec_idem g.data data' hm
      simp [position_to_int, hm']

/-- Witness for C3 (amended) at a concrete input: a record with `end = '.'`
makes `position_to_int` fail. -/
theorem position_to_int_amended_witness :
    position_to_int
        { data := [[("begin", Value.str "5"), ("end", Value.str ".")]],
          mode := "GFF", attr_sep := "=" }
      = none :=
  (position_to_int_amended _).1
    ⟨[("begin", Value.str "5"), ("end", Value.str ".")], by simp, Or.inr rfl⟩

/-- C6 counterexample: the claim says `read` returns false only when the
stream is exhausted. On a stream whose first line is blank, `read` consumes
the blank line and returns false although a line remains. -/
theorem read_blank_line_counterexample :
    read gffDefault ["", "chr1"] = some (false, gffDefault, ["chr1"])
    ∧ (["chr1"] : List String) ≠ [] :=
  ⟨rfl, by decide⟩

/-- C6 amended: `read` consumes one line and returns true for every line that
is non-blank after stripping trailing whitespace — comment lines are
recognized and discarded without being stored, feature lines are parsed and
appended — but it returns false both at end-of-stream and at any blank (or
whitespace-only) line, because the EOF test `if line:` runs on the stripped
line. -/
theorem read_amended (g : GffState) (l : String) (rest : List String) :
    read g [] = some (false, g, [])
    ∧ (pyRstrip l = "" → read g (l :: rest) = some (false, g, rest))
    ∧ (pyRstrip l ≠ "" → startswithHash (pyRstrip l) = true →
        read g (l :: rest) = some (true, g, rest))
    ∧ ∀ p, pyRstrip l ≠ "" → startswithHash (pyRstrip l) = false →
        feature_parse g.attr_sep (pyRstrip l) = some p →
        read g (l :: rest) = some (true, { g with data := g.data ++ [p] }, rest) := by
  refine ⟨rfl, fun h => ?_, fun h1 h2 => ?_, fun p h1 h2 h3 => ?_⟩
  · simp [read, h]
  · simp [read, h1, h2]
  · simp [read, h1, h2, h3]

/-- Witness for C6 (amended) at a concrete input: a comment line is consumed,
returns true, and stores nothing. -/
theorem read_amended_witness :
    read gffDefault ["#gff-version 3", "x"] = some (true, gffDefault, ["x"]) :=
  (read_amended gffDefault "#gff-version 3" ["x"]).2.2.1 (by decide) (by decide)

/-- C9 counterexample: the claim says attribute parsing fails exactly when
some non-empty segment lacks the separator. On the attribute field
`a=1;;b=2` every non-empty segment contains `=`, yet parsing fails, because
the empty interior segment (only a single trailing blank is popped) has no
separator either. -/
theorem attr_parse_empty_segment_counterexample :
    attrParse "=" [] "a=1;;b=2" = none
    ∧ ∀ f ∈ attrSegments "a=1;;b=2", f ≠ "" → splitOnceStr (pyStrip f) "=" ≠ none := by
  constructor
  · rfl
  · decide

/-- C9 amended: after a single trailing empty segment is popped, attribute
parsing fails — the error propagating to the caller rather than the segment
being dropped — exactly when some remaining segment (stripped of surrounding
whitespace) contains no occurrence of the separator; empty interior segments
therefore also fail. When every remaining segment contains the separator,
parsing succeeds and the resulting record has a key for each segment. -/
theorem attr_parse_amended (sep : String) (d : Dict) (a : String) :
    (attrParse sep d a = none ↔
      ∃ f ∈ attrSegments a, splitOnceStr (pyStrip f) sep = none)
    ∧ ∀ d', attrParse sep d a = some d' →
        ∀ f ∈ attrSegments a,
          ∃ kv, splitOnceStr (pyStrip f) sep = some kv ∧ dictHas d' kv.1 = true :=
  ⟨foldParse_eq_none sep (attrSegments a) d,
   fun d' h => foldParse_some_keys sep (attrSegments a) d d' h⟩

/-- Witness for C9 (amended) at concrete inputs: a separator-free segment
makes parsing fail, and a well-formed GTF attribute field parses with a key
per segment. -/
theorem attr_parse_amended_witness :
    attrParse "=" [] "Name" = none :=
  (attr_parse_amended "=" [] "Name").1.mpr ⟨"Name", by decide, by decide⟩

/-- C4 counterexample: the claim says a non-comment, non-blank line with
fewer than 9 whitespace-separated fields parses without error into a partial
record. On the 3-field line `chr1 src gene` `feature_parse` raises instead. -/
theorem feature_parse_partial_counterexample :
    feature_parse "=" "chr1 src gene" = none
    ∧ (pySplitWs (pyRstrip "chr1 src gene") 8).length = 3 :=
  ⟨rfl, rfl⟩

/-- C4 amended: only the column-assignment loop tolerates short lines; the
numeric-coercion and attribute steps then index the missing columns, so for
every raw line with fewer than 9 whitespace-separated fields `feature_parse`
raises (KeyError on a missing begin/end/frame/attribute column, or ValueError
on a present but malformed one) — partial records are never produced. -/
theorem feature_parse_partial_amended (sep line : String)
    (h : (pySplitWs (pyRstrip line) 8).length < 9) :
    feature_parse sep line = none :=
  fpf_attribute_none sep (pySplitWs (pyRstrip line) 8)
    (buildParsed_attribute_none (pySplitWs (pyRstrip line) 8) (by omega))

/-- Witness for C4 (amended) at a concrete input: the 2-field line `a b`. -/
theorem feature_parse_partial_amended_witness :
    (pySplitWs (pyRstrip "a b") 8).length < 9 ∧ feature_parse "=" "a b" = none :=
  ⟨by decide, feature_parse_partial_amended "=" "a b" (by decide)⟩

/-- C7: on a valid half-open range (`rangeStart` addressing an existing row,
`rangeStart ≤ rangeEndExclusive ≤ len`, and `rangeEndExclusive ≠ 0` — a 0 is
reinterpreted as the store length, so an empty range ending at 0 is not
expressible): if the key already exists in the record at `rangeStart`,
`attribute_add` returns 0 and changes nothing; otherwise it sets the key on
exactly the rows in the range (leaving other rows and other keys unchanged)
and returns the count `rangeEndExclusive - rangeStart` of rows mutated. -/
theorem attribute_add_spec (g : GffState) (attr : String) (value : Value)
    (b e : Nat) (row : Dict) (hrow : g.data[b]? = some row)
    (_hbe : b ≤ e) (_hel : e ≤ g.data.length) (he : e ≠ 0) :
    (dictHas row attr = true → attribute_add g attr value b e = some (g, 0))
    ∧ (dictHas row attr = false →
        (attribute_add g attr value b e
          = some ({ g with data := setRange attr value b e g.data },
                  (e : Int) - (b : Int)))
        ∧ (setRange attr value b e g.data).length = g.data.length
        ∧ (∀ i, b ≤ i → i < e →
            (setRange attr value b e g.data)[i]?
              = g.data[i]?.map fun d => dictSet d attr value)
        ∧ (∀ i, ¬(b ≤ i ∧ i < e) →
            (setRange attr value b e g.data)[i]? = g.data[i]?)
        ∧ ∀ d k, k ≠ attr →
            dictGet (dictSet d attr value) attr = some value
            ∧ dictGet (dictSet d attr value) k = dictGet d k) := by
  constructor
  · intro hhas
    simp [attribute_add, he, hrow, hhas]
  · intro hhas
    refine ⟨?_, setRange_length attr value b e g.data,
      fun i h1 h2 => ?_, fun i hni => ?_, fun d k hk => ?_⟩
    · simp [attribute_add, he, hrow, hhas]
    · simp [setRange_getq, h1, h2]
    · simp [setRange_getq, hni]
    · exact ⟨dictGet_dictSet_self d attr value, dictGet_dictSet_ne d attr k value hk⟩

/-- Witness for C7 at a concrete store of two records and range `[0, 1)`:
the key is absent from row 0, so exactly row 0 is mutated and 1 is
returned. -/
theorem attribute_add_spec_witness :
    attribute_add
        ⟨[[("feature", Value.str "gene")], [("feature", Value.str "exon")]], "GFF", "="⟩
        "source" (Value.str "GFF") 0 1
      = some
          (⟨setRange "source" (Value.str "GFF") 0 1
              [[("feature", Value.str "gene")], [("feature", Value.str "exon")]],
            "GFF", "="⟩,
           (1 : Int) - (0 : Int)) :=
  ((attribute_add_spec
      ⟨[[("feature", Value.str "gene")], [("feature", Value.str "exon")]], "GFF", "="⟩
      "source" (Value.str "GFF") 0 1 [("feature", Value.str "gene")] rfl
      (by decide) (by decide) (by decide)).2 (by decide)).1

/-- C10: a `rangeEndExclusive` argument of 0 is reinterpreted as the store
length, so `[k, 0)` cannot be requested: on a non-empty store with the key
absent from the record at `rangeStart`, `attribute_add(key, value,
rangeStart, 0)` mutates every record from `rangeStart` through the last
record and returns `len - rangeStart`. -/
theorem attribute_add_end_zero (g : GffState) (attr : String) (value : Value)
    (b : Nat) (row : Dict) (hrow : g.data[b]? = some row)
    (habs : dictHas row attr = false) :
    attribute_add g attr value b 0
      = some ({ g with data := setRange attr value b g.data.length g.data },
              (g.data.length : Int) - (b : Int))
    ∧ ∀ i, b ≤ i → i < g.data.length →
        (setRange attr value b g.data.length g.data)[i]?
          = g.data[i]?.map fun d => dictSet d attr value := by
  constructor
  · simp [attribute_add, hrow, habs]
  · intro i h1 h2
    simp [setRange_getq, h1, h2]

/-- Witness for C10 at a concrete store of two records, `rangeStart = 0`,
`rangeEndExclusive = 0`: both records are mutated and 2 is returned. -/
theorem attribute_add_end_zero_witness :
    attribute_add ⟨[[("a", Value.str "1")], [("b", Value.str "2")]], "GFF", "="⟩
        "source" (Value.str "GTF") 0 0
      = some
          (⟨setRange "source" (Value.str "GTF") 0 2
              [[("a", Value.str "1")], [("b", Value.str "2")]], "GFF", "="⟩,
           (2 : Int) - (0 : Int)) :=
  (attribute_add_end_zero
      ⟨[[("a", Value.str "1")], [("b", Value.str "2")]], "GFF", "="⟩
      "source" (Value.str "GTF") 0 [("a", Value.str "1")] rfl (by decide)).1

/-- C8 counterexample: the claim says that when `oldKey` is present in the
first record, `rename_key` succeeds and renames it on every record. On a
store whose first record has `ID` but whose second does not, `d.pop('ID')`
raises KeyError on the second record instead of succeeding. -/
theorem rename_key_missing_counterexample :
    rename_key ⟨[[("ID", Value.str "x")], [("Parent", Value.str "y")]], "GFF", "="⟩
        "ID" "Identifier"
      = none := rfl

/-- C8 amended: `rename_key` is a no-op returning false when `oldKey` is
absent from the first record; when `oldKey` is present in the first record it
renames it on every record — preserving each record's value, and removing the
old key when the names differ (keys being unique per record) — provided every
record contains `oldKey`; if some later record lacks it, `d.pop(oldKey)`
raises KeyError there instead. -/
theorem rename_key_amended (g : GffState) (oldKey newKey : String) (d0 : Dict)
    (hd0 : g.data[0]? = some d0) :
    (dictHas d0 oldKey = false → rename_key g oldKey newKey = some (g, false))
    ∧ (dictHas d0 oldKey = true → (∃ d ∈ g.data, dictHas d oldKey = false) →
        rename_key g oldKey newKey = none)
    ∧ (dictHas d0 oldKey = true → (∀ d ∈ g.data, dictHas d oldKey = true) →
        ∃ data', rename_key g oldKey newKey = some ({ g with data := data' }, true)
          ∧ data'.length = g.data.length
          ∧ ∀ (i : Nat) (hi : i < g.data.length) (hi' : i < data'.length),
              dictGet (data'.get ⟨i, hi'⟩) newKey = dictGet (g.data.get ⟨i, hi⟩) oldKey
              ∧ (oldKey ≠ newKey → ((g.data.get ⟨i, hi⟩).map Prod.fst).Nodup →
                  dictGet (data'.get ⟨i, hi'⟩) oldKey = none)) := by
  refine ⟨fun h => ?_, fun h hex => ?_, fun h hall => ?_⟩
  · simp [rename_key, hd0, h]
  · obtain ⟨d, hd, hfalse⟩ := hex
    have hnone : rename_rec oldKey newKey d = none := by
      unfold rename_rec
      rw [(dictPop_eq_none d oldKey).mpr ((dictHas_false_iff d oldKey).mp hfalse)]
      rfl
    have hm := mapRecords_none_of_mem (rename_rec oldKey newKey) g.data ⟨d, hd, hnone⟩
    simp [rename_key, hd0, h, hm]
  · have hsome : ∀ d ∈ g.data, (rename_rec oldKey newKey d).isSome :=
      fun d hd => rename_rec_isSome oldKey newKey d (hall d hd)
    obtain ⟨data', hm⟩ := mapRecords_some_of_all _ g.data hsome
    refine ⟨data', ?_, mapRecords_length _ _ _ hm, ?_⟩
    · simp [rename_key, hd0, h, hm]
    · intro i hi hi'
      exact rename_rec_get oldKey newKey _ _ (mapRecords_get _ g.data data' hm i hi hi')

/-- Witness for C8 (amended) at a concrete input: `oldKey` absent from the
first record makes `rename_key` a no-op returning false. -/
theorem rename_key_amended_witness :
    rename_key ⟨[[("ID", Value.str "x")]], "GFF", "="⟩ "Name" "N2"
      = some (⟨[[("ID", Value.str "x")]], "GFF", "="⟩, false) :=
  (rename_key_amended ⟨[[("ID", Value.str "x")]], "GFF", "="⟩ "Name" "N2"
      [("ID", Value.str "x")] rfl).1 (by decide)

end GffSpec
